import Mathlib

/-!
Verification of the flowmingo output-capture package (capture.go).

The embedding models the package as follows:

* A file descriptor content (the value stored in an os.File structure) is a
  natural number.  A handle (a pointer to an os.File) is the index of a cell
  in a memory, modelled as a list of naturals: cell i holds the descriptor
  content currently stored at handle i.  The in-place swap performed by
  replaceOutFile is an update of that cell; the restore validation reads it
  back and compares it with the installed pipe write end.
* os.Pipe is modelled by a fresh-descriptor counter: every pipe creation
  returns the current counter value as its write-end content and increments
  the counter, so distinct pipe creations yield distinct descriptors.
* A write to a descriptor is recorded in a write log, a list of pairs of the
  descriptor written to and the bytes written.  Write operations may fail
  according to an error oracle indexed by an operation counter; the code
  discards the error value, so a failed write merely delivers nothing.
* pipeReader is modelled as a function from the byte sequence that travels
  through the pipe (which ends when the write end is closed during restore)
  and an oracle of buffered-byte counts to the list of events the reader
  performs: emitted chunks, the completion signal, and the close of the read
  end.
* The aggregator goroutine and the restore closure both run under
  chunksFromPipesLock, so their actions are serialized; an execution is
  modelled by folding the aggregator step over the chunk arrival sequence,
  with the restore steps inserted at the serialization point.
-/

namespace Flowmingo

/-- A chunk of bytes captured from an output file, together with the handle
(the index of the os.File cell) it was written to.  Mirrors ChunkFromFile in
capture.go. -/
structure ChunkFromFile where
  chunk : List Nat
  outFile : Nat
deriving DecidableEq, Repr

/-- One observable action of the pipeReader goroutine: emitting a chunk on
outC, signalling on finishCh, or closing the read end of the pipe. -/
inductive ReaderEvent where
  | chunk (c : ChunkFromFile)
  | finish
  | closeRead
deriving DecidableEq, Repr

/-- The pipeReader loop of capture.go.  The input is the full byte sequence
that travels through the pipe before the write end is closed; sizes is an
oracle giving, for each iteration, how many further bytes reader.Buffered()
reports after the blocking ReadByte (capped by the bytes actually remaining).
Each iteration performs the blocking one-byte read, drains the buffered
bytes into the same block, and sends the block as one chunk; when the input
is exhausted ReadByte returns an error, so the reader signals on finishCh,
leaves the loop and closes the read end. -/
def pipeReaderRun (outFile : Nat) (sizes input : List Nat) : List ReaderEvent :=
  match input with
  | [] => [ReaderEvent.finish, ReaderEvent.closeRead]
  | b :: rest =>
      let buffered := min (sizes.headD 0) rest.length
      ReaderEvent.chunk ⟨b :: rest.take buffered, outFile⟩ ::
        pipeReaderRun outFile sizes.tail (rest.drop buffered)
termination_by input.length
decreasing_by
  simp only [List.length_drop, List.length_cons]
  omega

/-- Projection selecting the chunk events of a reader trace. -/
def readerEventChunk : ReaderEvent → Option ChunkFromFile
  | ReaderEvent.chunk c => some c
  | _ => none

/-- The chunks emitted by one pipeReader, in emission order. -/
def pipeReaderChunks (outFile : Nat) (sizes input : List Nat) : List ChunkFromFile :=
  (pipeReaderRun outFile sizes input).filterMap readerEventChunk

theorem pipeReaderRun_nil (f : Nat) (sizes : List Nat) :
    pipeReaderRun f sizes [] = [ReaderEvent.finish, ReaderEvent.closeRead] := by
  simp [pipeReaderRun]

theorem pipeReaderRun_cons (f : Nat) (sizes : List Nat) (b : Nat) (rest : List Nat) :
    pipeReaderRun f sizes (b :: rest) =
      ReaderEvent.chunk ⟨b :: rest.take (min (sizes.headD 0) rest.length), f⟩ ::
        pipeReaderRun f sizes.tail (rest.drop (min (sizes.headD 0) rest.length)) := by
  rw [pipeReaderRun]

/-- Auxiliary induction (on a bound of the input length) for the pipeReader
lemmas. -/
theorem pipeReaderRun_spec_aux (f : Nat) :
    ∀ (n : Nat) (sizes input : List Nat), input.length ≤ n →
      pipeReaderRun f sizes input =
        (pipeReaderChunks f sizes input).map ReaderEvent.chunk ++
          [ReaderEvent.finish, ReaderEvent.closeRead] ∧
      ((pipeReaderChunks f sizes input).map ChunkFromFile.chunk).flatten = input ∧
      ∀ c ∈ pipeReaderChunks f sizes input, c.chunk ≠ [] ∧ c.outFile = f := by
  intro n
  induction n with
  | zero =>
      intro sizes input hlen
      have : input = [] := List.length_eq_zero.mp (Nat.le_zero.mp hlen)
      subst this
      refine ⟨?_, ?_, ?_⟩ <;> simp [pipeReaderChunks, pipeReaderRun_nil, readerEventChunk]
  | succ n ih =>
      intro sizes input hlen
      match input with
      | [] =>
          refine ⟨?_, ?_, ?_⟩ <;>
            simp [pipeReaderChunks, pipeReaderRun_nil, readerEventChunk]
      | b :: rest =>
          have hdrop : (rest.drop (min (sizes.headD 0) rest.length)).length ≤ n := by
            simp only [List.length_drop]
            have : rest.length ≤ n := by
              simpa using Nat.le_of_succ_le_succ hlen
            omega
          obtain ⟨ih1, ih2, ih3⟩ := ih sizes.tail (rest.drop (min (sizes.headD 0) rest.length)) hdrop
          have hchunks : pipeReaderChunks f sizes (b :: rest) =
              ⟨b :: rest.take (min (sizes.headD 0) rest.length), f⟩ ::
                pipeReaderChunks f sizes.tail (rest.drop (min (sizes.headD 0) rest.length)) := by
            simp [pipeReaderChunks, pipeReaderRun_cons, readerEventChunk]
          refine ⟨?_, ?_, ?_⟩
          · rw [pipeReaderRun_cons, hchunks, ih1]
            simp
          · rw [hchunks]
            simp only [List.map_cons, List.flatten_cons, ih2]
            simp [List.take_append_drop]
          · rw [hchunks]
            intro c hc
            rcases List.mem_cons.mp hc with h | h
            · subst h
              exact ⟨by simp, rfl⟩
            · exact ih3 c h

theorem pipeReaderRun_events (f : Nat) (sizes input : List Nat) :
    pipeReaderRun f sizes input =
      (pipeReaderChunks f sizes input).map ReaderEvent.chunk ++
        [ReaderEvent.finish, ReaderEvent.closeRead] :=
  (pipeReaderRun_spec_aux f input.length sizes input (Nat.le_refl _)).1

theorem pipeReaderChunks_flatten (f : Nat) (sizes input : List Nat) :
    ((pipeReaderChunks f sizes input).map ChunkFromFile.chunk).flatten = input :=
  (pipeReaderRun_spec_aux f input.length sizes input (Nat.le_refl _)).2.1

theorem pipeReaderChunks_sound (f : Nat) (sizes input : List Nat) :
    ∀ c ∈ pipeReaderChunks f sizes input, c.chunk ≠ [] ∧ c.outFile = f :=
  (pipeReaderRun_spec_aux f input.length sizes input (Nat.le_refl _)).2.2

/-- Interleaving of two chunk streams at the many-producers/one-consumer
channel outC: Merge s t all holds when all is an arrival order that contains
s and t as subsequences, preserving the internal order of each.  A Go
channel delivers the messages of one sender in send order, so the arrival
order at the aggregator is such an interleaving. -/
inductive Merge : List ChunkFromFile → List ChunkFromFile → List ChunkFromFile → Prop where
  | nil : Merge [] [] []
  | left {a : ChunkFromFile} {s t all : List ChunkFromFile} :
      Merge s t all → Merge (a :: s) t (a :: all)
  | right {b : ChunkFromFile} {s t all : List ChunkFromFile} :
      Merge s t all → Merge s (b :: t) (b :: all)

theorem Merge.filter_left {p : ChunkFromFile → Bool} :
    ∀ {s t all : List ChunkFromFile}, Merge s t all →
      (∀ c ∈ s, p c = true) → (∀ c ∈ t, p c = false) → all.filter p = s := by
  intro s t all hm
  induction hm with
  | nil => intro _ _; rfl
  | left hm ih =>
      intro hs ht
      have hpa := hs _ (List.mem_cons_self _ _)
      simp only [List.filter_cons, hpa, if_true]
      rw [ih (fun c hc => hs c (List.mem_cons_of_mem _ hc)) ht]
  | right hm ih =>
      intro hs ht
      have hpb := ht _ (List.mem_cons_self _ _)
      simp only [List.filter_cons, hpb]
      exact ih hs (fun c hc => ht c (List.mem_cons_of_mem _ hc))

/-- Global state of the modelled process: the memory of handle cells, the
fresh-descriptor counter used by os.Pipe, the log of writes delivered to
descriptors, and the operation counter consulted by the I/O error oracle. -/
structure CaptureState where
  mem : List Nat
  nextPipe : Nat
  writeLog : List (Nat × List Nat)
  ioTick : Nat
deriving DecidableEq, Repr

/-- The error oracle under which every I/O operation succeeds. -/
def noFail : Nat → Bool := fun _ => false

/-- A write of bytes bs to descriptor d: one I/O operation.  The error value
the operation may produce is discarded by the code, so a failing write
merely delivers nothing to its destination. -/
def fileWrite (fail : Nat → Bool) (d : Nat) (bs : List Nat) (st : CaptureState) : CaptureState :=
  { st with
    ioTick := st.ioTick + 1,
    writeLog := if fail st.ioTick then st.writeLog else st.writeLog ++ [(d, bs)] }

/-- Lookup in outFilesOrigMap with Go map semantics: the last assignment to a
key wins, and a missing key yields the zero descriptor. -/
def mapLookup (m : List (Nat × Nat)) (k : Nat) : Nat :=
  match List.find? (fun p => p.1 == k) m.reverse with
  | some p => p.2
  | none => 0

/-- The fatal errors (panics) the package can raise. -/
inductive CaptureErr where
  | nilOutFile (i : Nat)
  | alreadyRestored
  | changedOutside (i : Nat)
deriving DecidableEq, Repr

/-- The per-capture-call state held by the closure Capture returns: the
captured handles, the pipe write ends installed in them, the saved original
descriptor contents, the handle-to-original map, the accumulated chunk
list, the needPassThrough flag, and whether outC is still non-nil. -/
structure Session where
  outFiles : List Nat
  outWFiles : List Nat
  origOutFiles : List Nat
  outFilesOrigMap : List (Nat × Nat)
  chunks : List ChunkFromFile
  needPassThrough : Bool
  outCOpen : Bool
deriving DecidableEq, Repr

/-- The setup loop of Capture: for each target handle, create a pipe (one
I/O operation whose error value is discarded), record its write end, save
the current descriptor contents of the handle as the original, install the
pipe write end in the handle, and record the handle-to-original map entry.
Returns origOutFiles, outWFiles, outFilesOrigMap and the updated state. -/
def captureSetup : List Nat → CaptureState → List Nat × List Nat × List (Nat × Nat) × CaptureState
  | [], st => ([], [], [], st)
  | t :: ts, st =>
      let outW := st.nextPipe
      let st1 : CaptureState := { st with nextPipe := st.nextPipe + 1, ioTick := st.ioTick + 1 }
      let orig := st1.mem.getD t 0
      let st2 : CaptureState := { st1 with mem := st1.mem.set t outW }
      let rest := captureSetup ts st2
      (orig :: rest.1, outW :: rest.2.1, (t, orig) :: rest.2.2.1, rest.2.2.2)

/-- The Capture function.  A target is an optional handle (a nil *os.File is
none).  The first loop rejects a nil target with a panic before any pipe is
created or any handle swapped; the second loop is captureSetup.  The
returned session corresponds to the closure state of the RestoreFunc.  The
fail oracle is accepted but never consulted: the error result of os.Pipe is
discarded unread. -/
def capture (fail : Nat → Bool) (targets : List (Option Nat)) (st : CaptureState) :
    Except (CaptureErr × CaptureState) (Session × CaptureState) :=
  match List.findIdx? Option.isNone targets with
  | some i => Except.error (CaptureErr.nilOutFile i, st)
  | none =>
      let ts := targets.filterMap id
      let r := captureSetup ts st
      Except.ok
        ({ outFiles := ts, outWFiles := r.2.1, origOutFiles := r.1,
           outFilesOrigMap := r.2.2.1, chunks := [], needPassThrough := false,
           outCOpen := true }, r.2.2.2)

/-- flushChunksToOrigPipes of capture.go: write every chunk to the original
descriptor saved for its handle, discarding write errors. -/
def flushChunksToOrigPipes (fail : Nat → Bool) :
    List ChunkFromFile → List (Nat × Nat) → CaptureState → CaptureState
  | [], _, st => st
  | c :: cs, m, st =>
      flushChunksToOrigPipes fail cs m (fileWrite fail (mapLookup m c.outFile) c.chunk st)

/-- One iteration of the aggregator goroutine on a received chunk: append it
to chunksFromPipes and, when needPassThrough is set, also write it to the
saved original descriptor of its handle.  Both happen under
chunksFromPipesLock. -/
def aggregatorStep (fail : Nat → Bool) (p : Session × CaptureState) (c : ChunkFromFile) :
    Session × CaptureState :=
  ({ p.1 with chunks := p.1.chunks ++ [c] },
   if p.1.needPassThrough then
     fileWrite fail (mapLookup p.1.outFilesOrigMap c.outFile) c.chunk p.2
   else p.2)

/-- The aggregator goroutine processing a list of arriving chunks in order. -/
def aggregatorRun (fail : Nat → Bool) : List ChunkFromFile → Session × CaptureState → Session × CaptureState
  | [], p => p
  | c :: cs, p => aggregatorRun fail cs (aggregatorStep fail p c)

/-- The validation loop of restoreOutFiles: the index of the first target
whose current descriptor contents differ from the pipe write end this
session installed, if any.  The counter argument carries the loop index
used in the panic message. -/
def restoreOutFilesCheck : List Nat → List Nat → Nat → List Nat → Option Nat
  | outFile :: outFs, outW :: outWs, i, mem =>
      if mem.getD outFile 0 = outW then restoreOutFilesCheck outFs outWs (i + 1) mem
      else some i
  | _, _, _, _ => none

/-- The compare-and-swap loop of restoreOutFiles: revert each handle to its
saved original, provided it still holds the installed pipe write end;
otherwise panic with the index of the offending target. -/
def restoreSwapLoop : List Nat → List Nat → List Nat → Nat → List Nat → Except Nat (List Nat)
  | outFile :: outFs, outW :: outWs, orig :: origs, i, mem =>
      if mem.getD outFile 0 = outW then
        restoreSwapLoop outFs outWs origs (i + 1) (mem.set outFile orig)
      else Except.error i
  | _, _, _, _, mem => Except.ok mem

/-- restoreOutFiles of capture.go, acting on the handle memory: first
validate every target, then revert every target.  An error is the index of
the offending target named in the panic message. -/
def restoreOutFiles (outFiles outWFiles origOutFiles mem : List Nat) : Except Nat (List Nat) :=
  match restoreOutFilesCheck outFiles outWFiles 0 mem with
  | some i => Except.error i
  | none => restoreSwapLoop outFiles outWFiles origOutFiles 0 mem

/-- The RestoreFunc closure returned by Capture.  It runs under captureLock;
late is the sequence of chunks that the aggregator processes between the
flush/arming point and the draining of the channel (the race window), which
the lock serializes after the flush.  The steps mirror the code: panic if
outC is already nil; when passThroughOuts is set, flush the accumulated
chunks to the saved original descriptors and arm needPassThrough, both under
chunksFromPipesLock; let the aggregator process the late chunks; validate
and revert the handles via restoreOutFiles (panicking with the offending
index on mismatch); close the pipe write ends and the channel (outC becomes
nil); return the accumulated chunk list. -/
def restore (fail : Nat → Bool) (s : Session) (passThroughOuts : Bool)
    (late : List ChunkFromFile) (st : CaptureState) :
    Except (CaptureErr × CaptureState) (List ChunkFromFile × Session × CaptureState) :=
  if s.outCOpen then
    let p0 : Session × CaptureState :=
      if passThroughOuts then
        ({ s with needPassThrough := true },
         flushChunksToOrigPipes fail s.chunks s.outFilesOrigMap st)
      else (s, st)
    let p1 := aggregatorRun fail late p0
    match restoreOutFiles s.outFiles s.outWFiles s.origOutFiles p1.2.mem with
    | Except.error i => Except.error (CaptureErr.changedOutside i, p1.2)
    | Except.ok mem2 =>
        Except.ok (p1.1.chunks, { p1.1 with outCOpen := false }, { p1.2 with mem := mem2 })
  else Except.error (CaptureErr.alreadyRestored, st)

/-- The session produced by Capture with no targets. -/
def emptySession : Session :=
  { outFiles := [], outWFiles := [], origOutFiles := [], outFilesOrigMap := [],
    chunks := [], needPassThrough := false, outCOpen := true }

/-- Projection of a restore outcome to the raised error together with the
handle memory at the moment the panic is raised. -/
def restoreErrMem :
    Except (CaptureErr × CaptureState) (List ChunkFromFile × Session × CaptureState) →
      Option (CaptureErr × List Nat)
  | Except.error (e, st) => some (e, st.mem)
  | Except.ok _ => none

theorem flushChunksToOrigPipes_mem (fail : Nat → Bool) (m : List (Nat × Nat)) :
    ∀ (cs : List ChunkFromFile) (st : CaptureState),
      (flushChunksToOrigPipes fail cs m st).mem = st.mem := by
  intro cs
  induction cs with
  | nil => intro st; rfl
  | cons c cs ih => intro st; simp [flushChunksToOrigPipes, ih, fileWrite]

theorem flushChunksToOrigPipes_nextPipe (fail : Nat → Bool) (m : List (Nat × Nat)) :
    ∀ (cs : List ChunkFromFile) (st : CaptureState),
      (flushChunksToOrigPipes fail cs m st).nextPipe = st.nextPipe := by
  intro cs
  induction cs with
  | nil => intro st; rfl
  | cons c cs ih => intro st; simp [flushChunksToOrigPipes, ih, fileWrite]

theorem flushChunksToOrigPipes_writeLog (m : List (Nat × Nat)) :
    ∀ (cs : List ChunkFromFile) (st : CaptureState),
      (flushChunksToOrigPipes noFail cs m st).writeLog =
        st.writeLog ++ cs.map (fun c => (mapLookup m c.outFile, c.chunk)) := by
  intro cs
  induction cs with
  | nil => intro st; simp [flushChunksToOrigPipes]
  | cons c cs ih =>
      intro st
      simp [flushChunksToOrigPipes, ih, fileWrite, noFail]

theorem aggregatorRun_fst (fail : Nat → Bool) :
    ∀ (cs : List ChunkFromFile) (p : Session × CaptureState),
      (aggregatorRun fail cs p).1 = { p.1 with chunks := p.1.chunks ++ cs } := by
  intro cs
  induction cs with
  | nil => intro p; simp [aggregatorRun]
  | cons c cs ih =>
      intro p
      rw [aggregatorRun, ih]
      simp [aggregatorStep]

theorem aggregatorRun_mem (fail : Nat → Bool) :
    ∀ (cs : List ChunkFromFile) (p : Session × CaptureState),
      (aggregatorRun fail cs p).2.mem = p.2.mem := by
  intro cs
  induction cs with
  | nil => intro p; rfl
  | cons c cs ih =>
      intro p
      rw [aggregatorRun, ih]
      simp only [aggregatorStep]
      by_cases h : p.1.needPassThrough <;> simp [h, fileWrite]

theorem aggregatorRun_nextPipe (fail : Nat → Bool) :
    ∀ (cs : List ChunkFromFile) (p : Session × CaptureState),
      (aggregatorRun fail cs p).2.nextPipe = p.2.nextPipe := by
  intro cs
  induction cs with
  | nil => intro p; rfl
  | cons c cs ih =>
      intro p
      rw [aggregatorRun, ih]
      simp only [aggregatorStep]
      by_cases h : p.1.needPassThrough <;> simp [h, fileWrite]

theorem aggregatorRun_writeLog_of_not_passThrough (fail : Nat → Bool) :
    ∀ (cs : List ChunkFromFile) (p : Session × CaptureState),
      p.1.needPassThrough = false →
      (aggregatorRun fail cs p).2.writeLog = p.2.writeLog := by
  intro cs
  induction cs with
  | nil => intro p _; rfl
  | cons c cs ih =>
      intro p hn
      rw [aggregatorRun]
      have hstep : (aggregatorStep fail p c).1.needPassThrough = false := hn
      rw [ih _ hstep]
      simp [aggregatorStep, hn]

theorem aggregatorRun_writeLog_of_passThrough :
    ∀ (cs : List ChunkFromFile) (p : Session × CaptureState),
      p.1.needPassThrough = true →
      (aggregatorRun noFail cs p).2.writeLog =
        p.2.writeLog ++
          cs.map (fun c => (mapLookup p.1.outFilesOrigMap c.outFile, c.chunk)) := by
  intro cs
  induction cs with
  | nil => intro p _; simp [aggregatorRun]
  | cons c cs ih =>
      intro p hn
      rw [aggregatorRun]
      have hstep : (aggregatorStep noFail p c).1.needPassThrough = true := hn
      rw [ih _ hstep]
      simp [aggregatorStep, hn, fileWrite, noFail]

theorem getD_set_self :
    ∀ (l : List Nat) (t v : Nat), t < l.length → (l.set t v).getD t 0 = v
  | _ :: _, 0, _, _ => rfl
  | _ :: l, t + 1, v, h => getD_set_self l t v (by simpa using h)

theorem restoreOutFiles_of_check_some (outFs outWs origs mem : List Nat) (j : Nat)
    (h : restoreOutFilesCheck outFs outWs 0 mem = some j) :
    restoreOutFiles outFs outWs origs mem = Except.error j := by
  unfold restoreOutFiles
  rw [h]

/-- Shared shape lemma: when the validation loop finds a mismatch, the
restore call panics with the offending index and the handle memory is still
the memory at the start of the call. -/
theorem restore_check_errMem (fail : Nat → Bool) (s : Session) (pt : Bool)
    (late : List ChunkFromFile) (st : CaptureState) (j : Nat)
    (houtc : s.outCOpen = true)
    (hchk : restoreOutFilesCheck s.outFiles s.outWFiles 0 st.mem = some j) :
    restoreErrMem (restore fail s pt late st) =
      some (CaptureErr.changedOutside j, st.mem) := by
  cases pt with
  | false =>
      have hmem : (aggregatorRun fail late (s, st)).2.mem = st.mem :=
        aggregatorRun_mem fail late (s, st)
      simp only [restore, houtc, if_true, Bool.false_eq_true, if_false]
      rw [hmem, restoreOutFiles_of_check_some _ _ s.origOutFiles _ j hchk]
      simp [restoreErrMem, hmem]
  | true =>
      have hmem :
          (aggregatorRun fail late
            ({ outFiles := s.outFiles, outWFiles := s.outWFiles,
               origOutFiles := s.origOutFiles, outFilesOrigMap := s.outFilesOrigMap,
               chunks := s.chunks, needPassThrough := true, outCOpen := true },
             flushChunksToOrigPipes fail s.chunks s.outFilesOrigMap st)).2.mem = st.mem := by
        rw [aggregatorRun_mem]
        exact flushChunksToOrigPipes_mem fail s.outFilesOrigMap s.chunks st
      simp only [restore, houtc, if_true]
      rw [hmem, restoreOutFiles_of_check_some _ _ s.origOutFiles _ j hchk]
      simp [restoreErrMem, hmem]

/-- Shared shape lemma: when the session is still open and the validation
and revert loops succeed on the current memory, restore returns the
accumulated chunks followed by the race-window chunks, marks the session
closed, installs the reverted memory, and preserves the pipe counter. -/
theorem restore_ok_strip (fail : Nat → Bool) (s : Session) (pt : Bool)
    (late : List ChunkFromFile) (st : CaptureState) (mem2 : List Nat)
    (houtc : s.outCOpen = true)
    (hro : restoreOutFiles s.outFiles s.outWFiles s.origOutFiles st.mem = Except.ok mem2) :
    ∃ st2 : CaptureState,
      restore fail s pt late st =
        Except.ok (s.chunks ++ late,
          { outFiles := s.outFiles, outWFiles := s.outWFiles,
            origOutFiles := s.origOutFiles, outFilesOrigMap := s.outFilesOrigMap,
            chunks := s.chunks ++ late, needPassThrough := (pt || s.needPassThrough),
            outCOpen := false }, st2) ∧
      st2.mem = mem2 ∧ st2.nextPipe = st.nextPipe := by
  cases pt with
  | false =>
      have hmem : (aggregatorRun fail late (s, st)).2.mem = st.mem :=
        aggregatorRun_mem fail late (s, st)
      have hfst : (aggregatorRun fail late (s, st)).1 =
          { s with chunks := s.chunks ++ late } :=
        aggregatorRun_fst fail late (s, st)
      have hnp : (aggregatorRun fail late (s, st)).2.nextPipe = st.nextPipe :=
        aggregatorRun_nextPipe fail late (s, st)
      simp only [restore, houtc, if_true, Bool.false_eq_true, if_false]
      rw [hmem, hro]
      refine ⟨{ (aggregatorRun fail late (s, st)).2 with mem := mem2 }, ?_, rfl, hnp⟩
      rw [hfst]
      simp
  | true =>
      have hmem : (aggregatorRun fail late
          ({ outFiles := s.outFiles, outWFiles := s.outWFiles,
             origOutFiles := s.origOutFiles, outFilesOrigMap := s.outFilesOrigMap,
             chunks := s.chunks, needPassThrough := true, outCOpen := true },
           flushChunksToOrigPipes fail s.chunks s.outFilesOrigMap st)).2.mem = st.mem := by
        rw [aggregatorRun_mem]
        exact flushChunksToOrigPipes_mem fail s.outFilesOrigMap s.chunks st
      have hfst : (aggregatorRun fail late
          ({ outFiles := s.outFiles, outWFiles := s.outWFiles,
             origOutFiles := s.origOutFiles, outFilesOrigMap := s.outFilesOrigMap,
             chunks := s.chunks, needPassThrough := true, outCOpen := true },
           flushChunksToOrigPipes fail s.chunks s.outFilesOrigMap st)).1 =
          { outFiles := s.outFiles, outWFiles := s.outWFiles,
            origOutFiles := s.origOutFiles, outFilesOrigMap := s.outFilesOrigMap,
            chunks := s.chunks ++ late, needPassThrough := true, outCOpen := true } :=
        aggregatorRun_fst fail late _
      have hnp : (aggregatorRun fail late
          ({ outFiles := s.outFiles, outWFiles := s.outWFiles,
             origOutFiles := s.origOutFiles, outFilesOrigMap := s.outFilesOrigMap,
             chunks := s.chunks, needPassThrough := true, outCOpen := true },
           flushChunksToOrigPipes fail s.chunks s.outFilesOrigMap st)).2.nextPipe
          = st.nextPipe := by
        rw [aggregatorRun_nextPipe]
        exact flushChunksToOrigPipes_nextPipe fail s.outFilesOrigMap s.chunks st
      simp only [restore, houtc, if_true]
      rw [hmem, hro]
      refine ⟨{ (aggregatorRun fail late
          ({ outFiles := s.outFiles, outWFiles := s.outWFiles,
             origOutFiles := s.origOutFiles, outFilesOrigMap := s.outFilesOrigMap,
             chunks := s.chunks, needPassThrough := true, outCOpen := true },
           flushChunksToOrigPipes fail s.chunks s.outFilesOrigMap st)).2
          with mem := mem2 }, ?_, rfl, hnp⟩
      rw [hfst]
      simp

/-- C1: the bytes written to one captured handle come back exactly.  The
chunks emitted for that handle are an order-preserving subsequence of the
chunk list the aggregator accumulates (the list restore returns): filtering
the returned list to the handle yields precisely the reader chunks of that handle
in emission order, and their bytes concatenate to exactly the bytes written
to that handle. -/
theorem captured_handle_bytes_exact_fifo (h : Nat) (sizes input : List Nat)
    (others late : List ChunkFromFile) (s : Session) (st : CaptureState)
    (pt : Bool) (mem2 : List Nat)
    (houtc : s.outCOpen = true)
    (hro : restoreOutFiles s.outFiles s.outWFiles s.origOutFiles st.mem = Except.ok mem2)
    (hmerge : Merge (pipeReaderChunks h sizes input) others (s.chunks ++ late))
    (hothers : ∀ c ∈ others, c.outFile ≠ h) :
    Except.map (fun p => p.1) (restore noFail s pt late st) =
      Except.ok (s.chunks ++ late) ∧
    (s.chunks ++ late).filter (fun c => c.outFile == h) = pipeReaderChunks h sizes input ∧
    (((s.chunks ++ late).filter (fun c => c.outFile == h)).map ChunkFromFile.chunk).flatten
      = input := by
  have hfilter : (s.chunks ++ late).filter (fun c => c.outFile == h) =
      pipeReaderChunks h sizes input := by
    apply Merge.filter_left hmerge
    · intro c hc
      have hcf := (pipeReaderChunks_sound h sizes input c hc).2
      simp [hcf]
    · intro c hc
      exact beq_eq_false_iff_ne.mpr (hothers c hc)
  obtain ⟨st2, heq, -, -⟩ := restore_ok_strip noFail s pt late st mem2 houtc hro
  refine ⟨?_, hfilter, ?_⟩
  · rw [heq]
    rfl
  · rw [hfilter]
    exact pipeReaderChunks_flatten h sizes input

/-- C1 witness: a concrete two-handle run in which handle 0 wrote the bytes
1 2 through its pipe and handle 1 contributed an interleaved chunk. -/
theorem captured_handle_bytes_exact_fifo_witness :
    Except.map (fun p => p.1)
        (restore noFail
          { outFiles := [], outWFiles := [], origOutFiles := [], outFilesOrigMap := [],
            chunks := [⟨[1, 2], 0⟩, ⟨[9], 1⟩], needPassThrough := false, outCOpen := true }
          false [] ⟨[], 0, [], 0⟩) =
      Except.ok ([⟨[1, 2], 0⟩, ⟨[9], 1⟩] ++ []) ∧
    (([⟨[1, 2], 0⟩, ⟨[9], 1⟩] ++ [] : List ChunkFromFile).filter
        (fun c => c.outFile == 0)) = pipeReaderChunks 0 [1] [1, 2] ∧
    ((([⟨[1, 2], 0⟩, ⟨[9], 1⟩] ++ [] : List ChunkFromFile).filter
        (fun c => c.outFile == 0)).map ChunkFromFile.chunk).flatten = [1, 2] :=
  captured_handle_bytes_exact_fifo 0 [1] [1, 2] [⟨[9], 1⟩] []
    { outFiles := [], outWFiles := [], origOutFiles := [], outFilesOrigMap := [],
      chunks := [⟨[1, 2], 0⟩, ⟨[9], 1⟩], needPassThrough := false, outCOpen := true }
    ⟨[], 0, [], 0⟩ false [] rfl rfl
    (by
      have e : pipeReaderChunks 0 [1] [1, 2] = [⟨[1, 2], 0⟩] := by
        simp [pipeReaderChunks, pipeReaderRun_cons, pipeReaderRun_nil, readerEventChunk]
      rw [e]
      exact Merge.left (Merge.right Merge.nil))
    (by
      intro c hc
      simp only [List.mem_singleton] at hc
      subst hc
      decide)

/-- C2: restore with passThroughOuts=false delivers no bytes to any saved
original destination (the write log is unchanged), while restore with
passThroughOuts=true first flushes the chunks accumulated so far to each
saved original descriptor and then, with write-through armed, delivers each
race-window chunk on arrival: the write log is extended by exactly the
captured chunks, each addressed to the original descriptor saved for its
handle, in captured order.  Both calls return the full captured chunk
list. -/
theorem restore_passThrough_delivery (s : Session) (st : CaptureState)
    (late : List ChunkFromFile) (mem2 : List Nat)
    (houtc : s.outCOpen = true) (hnpt : s.needPassThrough = false)
    (hro : restoreOutFiles s.outFiles s.outWFiles s.origOutFiles st.mem = Except.ok mem2) :
    Except.map (fun p => (p.1, p.2.2.writeLog)) (restore noFail s false late st) =
      Except.ok (s.chunks ++ late, st.writeLog) ∧
    Except.map (fun p => (p.1, p.2.2.writeLog)) (restore noFail s true late st) =
      Except.ok (s.chunks ++ late,
        st.writeLog ++
          (s.chunks ++ late).map
            (fun c => (mapLookup s.outFilesOrigMap c.outFile, c.chunk))) := by
  constructor
  · have hmem : (aggregatorRun noFail late (s, st)).2.mem = st.mem :=
      aggregatorRun_mem noFail late (s, st)
    have hfst : (aggregatorRun noFail late (s, st)).1 =
        { s with chunks := s.chunks ++ late } :=
      aggregatorRun_fst noFail late (s, st)
    have hlog : (aggregatorRun noFail late (s, st)).2.writeLog = st.writeLog :=
      aggregatorRun_writeLog_of_not_passThrough noFail late (s, st) hnpt
    simp only [restore, houtc, if_true, Bool.false_eq_true, if_false]
    rw [hmem, hro]
    simp [Except.map, hfst, hlog]
  · have hmem : (aggregatorRun noFail late
        ({ outFiles := s.outFiles, outWFiles := s.outWFiles,
           origOutFiles := s.origOutFiles, outFilesOrigMap := s.outFilesOrigMap,
           chunks := s.chunks, needPassThrough := true, outCOpen := true },
         flushChunksToOrigPipes noFail s.chunks s.outFilesOrigMap st)).2.mem = st.mem := by
      rw [aggregatorRun_mem]
      exact flushChunksToOrigPipes_mem noFail s.outFilesOrigMap s.chunks st
    have hfst : (aggregatorRun noFail late
        ({ outFiles := s.outFiles, outWFiles := s.outWFiles,
           origOutFiles := s.origOutFiles, outFilesOrigMap := s.outFilesOrigMap,
           chunks := s.chunks, needPassThrough := true, outCOpen := true },
         flushChunksToOrigPipes noFail s.chunks s.outFilesOrigMap st)).1 =
        { outFiles := s.outFiles, outWFiles := s.outWFiles,
          origOutFiles := s.origOutFiles, outFilesOrigMap := s.outFilesOrigMap,
          chunks := s.chunks ++ late, needPassThrough := true, outCOpen := true } :=
      aggregatorRun_fst noFail late _
    have hlog : (aggregatorRun noFail late
        ({ outFiles := s.outFiles, outWFiles := s.outWFiles,
           origOutFiles := s.origOutFiles, outFilesOrigMap := s.outFilesOrigMap,
           chunks := s.chunks, needPassThrough := true, outCOpen := true },
         flushChunksToOrigPipes noFail s.chunks s.outFilesOrigMap st)).2.writeLog =
        (flushChunksToOrigPipes noFail s.chunks s.outFilesOrigMap st).writeLog ++
          late.map (fun c => (mapLookup s.outFilesOrigMap c.outFile, c.chunk)) :=
      aggregatorRun_writeLog_of_passThrough late _ rfl
    have hflw : (flushChunksToOrigPipes noFail s.chunks s.outFilesOrigMap st).writeLog =
        st.writeLog ++ s.chunks.map (fun c => (mapLookup s.outFilesOrigMap c.outFile, c.chunk)) :=
      flushChunksToOrigPipes_writeLog s.outFilesOrigMap s.chunks st
    simp only [restore, houtc, if_true]
    rw [hmem, hro]
    simp [Except.map, hfst, hlog, hflw, List.map_append, List.append_assoc]

/-- C2 witness: one accumulated chunk and one race-window chunk on handle 4,
whose saved original descriptor is 9. -/
theorem restore_passThrough_delivery_witness :
    Except.map (fun p => (p.1, p.2.2.writeLog))
        (restore noFail
          { outFiles := [], outWFiles := [], origOutFiles := [], outFilesOrigMap := [(4, 9)],
            chunks := [⟨[1], 4⟩], needPassThrough := false, outCOpen := true }
          false [⟨[2], 4⟩] ⟨[], 0, [], 0⟩) =
      Except.ok ([⟨[1], 4⟩] ++ [⟨[2], 4⟩], ([] : List (Nat × List Nat))) ∧
    Except.map (fun p => (p.1, p.2.2.writeLog))
        (restore noFail
          { outFiles := [], outWFiles := [], origOutFiles := [], outFilesOrigMap := [(4, 9)],
            chunks := [⟨[1], 4⟩], needPassThrough := false, outCOpen := true }
          true [⟨[2], 4⟩] ⟨[], 0, [], 0⟩) =
      Except.ok ([⟨[1], 4⟩] ++ [⟨[2], 4⟩],
        ([] : List (Nat × List Nat)) ++
          ([⟨[1], 4⟩] ++ [⟨[2], 4⟩] : List ChunkFromFile).map
            (fun c => (mapLookup [(4, 9)] c.outFile, c.chunk))) :=
  restore_passThrough_delivery
    { outFiles := [], outWFiles := [], origOutFiles := [], outFilesOrigMap := [(4, 9)],
      chunks := [⟨[1], 4⟩], needPassThrough := false, outCOpen := true }
    ⟨[], 0, [], 0⟩ [⟨[2], 4⟩] [] rfl rfl rfl

/-- C7: each per-handle reader performs a blocking read of at least one
byte, drains the buffered bytes into the same block, forwards the block as
one chunk attributed to its handle, and repeats; when the read errors
(end-of-stream after the write end is closed) it stops, signals completion
on finishCh, and only then closes its read end.  The trace is exactly the
emitted chunks followed by the finish signal and the close; every chunk is
nonempty and attributed to the handle of this reader; the bytes of the
chunks concatenate to exactly the bytes that travelled through the pipe. -/
theorem pipeReader_loop_contract (f : Nat) (sizes input : List Nat) :
    pipeReaderRun f sizes input =
      (pipeReaderChunks f sizes input).map ReaderEvent.chunk ++
        [ReaderEvent.finish, ReaderEvent.closeRead] ∧
    ((pipeReaderChunks f sizes input).map ChunkFromFile.chunk).flatten = input ∧
    ∀ c ∈ pipeReaderChunks f sizes input, c.chunk ≠ [] ∧ c.outFile = f :=
  ⟨pipeReaderRun_events f sizes input, pipeReaderChunks_flatten f sizes input,
   pipeReaderChunks_sound f sizes input⟩

/-- C3: a restore capability succeeds at most once: a successful call leaves
the session in the terminal state (outC nil), and any later call on that
session is the fatal already-restored panic, raised with the surrounding
state untouched (the error carries the state exactly as it was at the
call). -/
theorem restore_exactly_once (fail fail2 : Nat → Bool) (s : Session) (pt pt2 : Bool)
    (late late2 : List ChunkFromFile) (st st2 : CaptureState)
    (ret : List ChunkFromFile) (s2 : Session) (stR : CaptureState)
    (h : restore fail s pt late st = Except.ok (ret, s2, stR)) :
    s2.outCOpen = false ∧
    restore fail2 s2 pt2 late2 st2 = Except.error (CaptureErr.alreadyRestored, st2) := by
  cases hoc : s.outCOpen with
  | false => simp [restore, hoc] at h
  | true =>
      have hs2 : s2.outCOpen = false := by
        simp only [restore, hoc, if_true] at h
        split at h
        · exact absurd h (by simp)
        · simp only [Except.ok.injEq, Prod.mk.injEq] at h
          obtain ⟨-, h2, -⟩ := h
          rw [← h2]
      exact ⟨hs2, by simp [restore, hs2]⟩

/-- C3 witness: a concrete successful restore of an empty-target session,
followed by a second call that panics. -/
theorem restore_exactly_once_witness :
    ({ emptySession with outCOpen := false } : Session).outCOpen = false ∧
    restore noFail { emptySession with outCOpen := false } true [] ⟨[], 1, [], 2⟩ =
      Except.error (CaptureErr.alreadyRestored, ⟨[], 1, [], 2⟩) :=
  restore_exactly_once noFail noFail emptySession false true [] [] ⟨[], 0, [], 0⟩
    ⟨[], 1, [], 2⟩ [] { emptySession with outCOpen := false } ⟨[], 0, [], 0⟩ rfl

/-- C4: when the restore validation finds a target whose current descriptor
contents no longer equal the pipe write end this session installed, the
restore panics with the index of the first offending target, and the handle
memory at the moment of the panic is exactly the memory at the start of the
call: no handle has been reverted yet. -/
theorem restore_validation_aborts_before_mutation (fail : Nat → Bool) (s : Session)
    (pt : Bool) (late : List ChunkFromFile) (st : CaptureState) (j : Nat)
    (houtc : s.outCOpen = true)
    (hchk : restoreOutFilesCheck s.outFiles s.outWFiles 0 st.mem = some j) :
    restoreErrMem (restore fail s pt late st) =
      some (CaptureErr.changedOutside j, st.mem) :=
  restore_check_errMem fail s pt late st j houtc hchk

/-- C4 witness: one captured handle whose cell was overwritten with 7 while
the session installed pipe write end 5; the restore panics naming target 0
and the memory still holds 7. -/
theorem restore_validation_aborts_before_mutation_witness :
    restoreErrMem
        (restore noFail
          { outFiles := [0], outWFiles := [5], origOutFiles := [3],
            outFilesOrigMap := [(0, 3)], chunks := [], needPassThrough := false,
            outCOpen := true }
          false [] ⟨[7], 9, [], 0⟩) =
      some (CaptureErr.changedOutside 0, [7]) :=
  restore_validation_aborts_before_mutation noFail
    { outFiles := [0], outWFiles := [5], origOutFiles := [3],
      outFilesOrigMap := [(0, 3)], chunks := [], needPassThrough := false,
      outCOpen := true }
    false [] ⟨[7], 9, [], 0⟩ 0 rfl rfl

/-- C6: a nil capture target is rejected by the panic in the first loop of
Capture, before any pipe is created and before any handle is swapped: the
error names the first nil index and carries the process state exactly as it
was at the call (no pipe counter increment, no memory update). -/
theorem capture_nil_target_rejected (fail : Nat → Bool) (targets : List (Option Nat))
    (st : CaptureState) (j : Nat)
    (hj : List.findIdx? Option.isNone targets = some j) :
    capture fail targets st = Except.error (CaptureErr.nilOutFile j, st) := by
  rw [capture, hj]

/-- C6 witness: the second of two targets is nil; the panic names index 1
and the state is untouched. -/
theorem capture_nil_target_rejected_witness :
    capture noFail [some 3, none] ⟨[], 0, [], 0⟩ =
      Except.error (CaptureErr.nilOutFile 1, ⟨[], 0, [], 0⟩) :=
  capture_nil_target_rejected noFail [some 3, none] ⟨[], 0, [], 0⟩ 1 rfl

/-- C10: Capture with an empty target list succeeds, swaps no handle, and
returns a working restore capability: one restore call (with either
pass-through flag) mutates no handle, writes no bytes, and returns the empty
chunk list; a second call on the restored session is the fatal
already-restored panic. -/
theorem capture_empty_targets (fail fail2 : Nat → Bool) (st st2 : CaptureState)
    (pt pt2 : Bool) (late2 : List ChunkFromFile) :
    capture fail [] st = Except.ok (emptySession, st) ∧
    restore fail emptySession pt [] st =
      Except.ok ([], { emptySession with needPassThrough := pt, outCOpen := false }, st) ∧
    restore fail2 { emptySession with needPassThrough := pt, outCOpen := false } pt2 late2 st2 =
      Except.error (CaptureErr.alreadyRestored, st2) := by
  refine ⟨rfl, ?_, rfl⟩
  cases pt <;> rfl

/-- C5: capturing the same handle in two nested sessions and then invoking
the outer restore while the inner session is still active is caught: the
outer validation finds the inner pipe write end installed instead of its
own, so the call panics naming the target, with the handle memory left as
it was. -/
theorem nested_outer_restore_rejected (st0 : CaptureState) (t : Nat) (pt : Bool)
    (late : List ChunkFromFile) (sO sI : Session) (stO stI : CaptureState)
    (ht : t < st0.mem.length)
    (hO : capture noFail [some t] st0 = Except.ok (sO, stO))
    (hI : capture noFail [some t] stO = Except.ok (sI, stI)) :
    restoreErrMem (restore noFail sO pt late stI) =
      some (CaptureErr.changedOutside 0, stI.mem) := by
  have hcap1 : capture noFail [some t] st0 =
      Except.ok
        ({ outFiles := [t], outWFiles := [st0.nextPipe],
           origOutFiles := [st0.mem.getD t 0], outFilesOrigMap := [(t, st0.mem.getD t 0)],
           chunks := [], needPassThrough := false, outCOpen := true },
         { mem := st0.mem.set t st0.nextPipe, nextPipe := st0.nextPipe + 1,
           writeLog := st0.writeLog, ioTick := st0.ioTick + 1 }) := rfl
  rw [hcap1, Except.ok.injEq, Prod.mk.injEq] at hO
  obtain ⟨hsO, hstO⟩ := hO
  subst hsO
  subst hstO
  have hcap2 : capture noFail [some t]
      { mem := st0.mem.set t st0.nextPipe, nextPipe := st0.nextPipe + 1,
        writeLog := st0.writeLog, ioTick := st0.ioTick + 1 } =
      Except.ok
        ({ outFiles := [t], outWFiles := [st0.nextPipe + 1],
           origOutFiles := [(st0.mem.set t st0.nextPipe).getD t 0],
           outFilesOrigMap := [(t, (st0.mem.set t st0.nextPipe).getD t 0)],
           chunks := [], needPassThrough := false, outCOpen := true },
         { mem := (st0.mem.set t st0.nextPipe).set t (st0.nextPipe + 1),
           nextPipe := st0.nextPipe + 2,
           writeLog := st0.writeLog, ioTick := st0.ioTick + 2 }) := rfl
  rw [hcap2, Except.ok.injEq, Prod.mk.injEq] at hI
  obtain ⟨hsI, hstI⟩ := hI
  subst hsI
  subst hstI
  have hget : ((st0.mem.set t st0.nextPipe).set t (st0.nextPipe + 1)).getD t 0 =
      st0.nextPipe + 1 := by
    rw [List.set_set]
    exact getD_set_self st0.mem t (st0.nextPipe + 1) ht
  have hchk : restoreOutFilesCheck [t] [st0.nextPipe] 0
      ((st0.mem.set t st0.nextPipe).set t (st0.nextPipe + 1)) = some 0 := by
    unfold restoreOutFilesCheck
    rw [hget, if_neg (Nat.succ_ne_self st0.nextPipe)]
  exact restore_check_errMem noFail _ pt late _ 0 rfl hchk

/-- C5 witness: handle 0 captured twice in a row starting from descriptor 5
and pipe counter 10; restoring the outer capability panics on target 0. -/
theorem nested_outer_restore_rejected_witness :
    restoreErrMem
        (restore noFail
          { outFiles := [0], outWFiles := [10], origOutFiles := [5],
            outFilesOrigMap := [(0, 5)], chunks := [], needPassThrough := false,
            outCOpen := true }
          false [] ⟨[11], 12, [], 2⟩) =
      some (CaptureErr.changedOutside 0, [11]) :=
  nested_outer_restore_rejected ⟨[5], 10, [], 0⟩ 0 false []
    { outFiles := [0], outWFiles := [10], origOutFiles := [5],
      outFilesOrigMap := [(0, 5)], chunks := [], needPassThrough := false,
      outCOpen := true }
    { outFiles := [0], outWFiles := [11], origOutFiles := [10],
      outFilesOrigMap := [(0, 10)], chunks := [], needPassThrough := false,
      outCOpen := true }
    ⟨[10], 11, [], 1⟩ ⟨[11], 12, [], 2⟩ (by decide) rfl rfl

/-- Caller-visible projection of a restore outcome: the panic or the
returned chunk list and session, and the handle memory with the pipe
counter; only the write log and the operation counter, which record the
I/O of the call itself, are dropped. -/
def stripRestoreResult :
    Except (CaptureErr × CaptureState) (List ChunkFromFile × Session × CaptureState) →
      Except (CaptureErr × List Nat × Nat) (List ChunkFromFile × Session × List Nat × Nat)
  | Except.error (e, st) => Except.error (e, st.mem, st.nextPipe)
  | Except.ok (cs, s, st) => Except.ok (cs, s, st.mem, st.nextPipe)

/-- C8: I/O errors are swallowed.  The error value of os.Pipe is discarded
unread, so the capture result does not depend on the error oracle at all;
the error values of the descriptor writes are likewise discarded, so every
caller-visible part of the restore outcome (panic or returned chunks,
session, handle memory, pipe counter) is the same under an arbitrary
error oracle as under the oracle where every I/O operation succeeds. -/
theorem io_errors_swallowed (fail : Nat → Bool) (targets : List (Option Nat))
    (s : Session) (pt : Bool) (late : List ChunkFromFile) (st : CaptureState) :
    capture fail targets st = capture noFail targets st ∧
    stripRestoreResult (restore fail s pt late st) =
      stripRestoreResult (restore noFail s pt late st) := by
  refine ⟨rfl, ?_⟩
  cases hoc : s.outCOpen with
  | false => simp [restore, hoc]
  | true =>
      cases pt with
      | false =>
          have hmemA : (aggregatorRun fail late (s, st)).2.mem = st.mem :=
            aggregatorRun_mem fail late (s, st)
          have hmemB : (aggregatorRun noFail late (s, st)).2.mem = st.mem :=
            aggregatorRun_mem noFail late (s, st)
          have hnpA : (aggregatorRun fail late (s, st)).2.nextPipe = st.nextPipe :=
            aggregatorRun_nextPipe fail late (s, st)
          have hnpB : (aggregatorRun noFail late (s, st)).2.nextPipe = st.nextPipe :=
            aggregatorRun_nextPipe noFail late (s, st)
          have hfstA : (aggregatorRun fail late (s, st)).1 =
              { s with chunks := s.chunks ++ late } := aggregatorRun_fst fail late (s, st)
          have hfstB : (aggregatorRun noFail late (s, st)).1 =
              { s with chunks := s.chunks ++ late } := aggregatorRun_fst noFail late (s, st)
          simp only [restore, hoc, if_true, Bool.false_eq_true, if_false]
          rw [hmemA, hmemB]
          cases hro : restoreOutFiles s.outFiles s.outWFiles s.origOutFiles st.mem with
          | error i => simp [stripRestoreResult, hmemA, hmemB, hnpA, hnpB]
          | ok mem2 => simp [stripRestoreResult, hfstA, hfstB, hnpA, hnpB]
      | true =>
          have hmemA : (aggregatorRun fail late
              ({ outFiles := s.outFiles, outWFiles := s.outWFiles,
                 origOutFiles := s.origOutFiles, outFilesOrigMap := s.outFilesOrigMap,
                 chunks := s.chunks, needPassThrough := true, outCOpen := true },
               flushChunksToOrigPipes fail s.chunks s.outFilesOrigMap st)).2.mem = st.mem := by
            rw [aggregatorRun_mem]
            exact flushChunksToOrigPipes_mem fail s.outFilesOrigMap s.chunks st
          have hmemB : (aggregatorRun noFail late
              ({ outFiles := s.outFiles, outWFiles := s.outWFiles,
                 origOutFiles := s.origOutFiles, outFilesOrigMap := s.outFilesOrigMap,
                 chunks := s.chunks, needPassThrough := true, outCOpen := true },
               flushChunksToOrigPipes noFail s.chunks s.outFilesOrigMap st)).2.mem = st.mem := by
            rw [aggregatorRun_mem]
            exact flushChunksToOrigPipes_mem noFail s.outFilesOrigMap s.chunks st
          have hnpA : (aggregatorRun fail late
              ({ outFiles := s.outFiles, outWFiles := s.outWFiles,
                 origOutFiles := s.origOutFiles, outFilesOrigMap := s.outFilesOrigMap,
                 chunks := s.chunks, needPassThrough := true, outCOpen := true },
               flushChunksToOrigPipes fail s.chunks s.outFilesOrigMap st)).2.nextPipe
              = st.nextPipe := by
            rw [aggregatorRun_nextPipe]
            exact flushChunksToOrigPipes_nextPipe fail s.outFilesOrigMap s.chunks st
          have hnpB : (aggregatorRun noFail late
              ({ outFiles := s.outFiles, outWFiles := s.outWFiles,
                 origOutFiles := s.origOutFiles, outFilesOrigMap := s.outFilesOrigMap,
                 chunks := s.chunks, needPassThrough := true, outCOpen := true },
               flushChunksToOrigPipes noFail s.chunks s.outFilesOrigMap st)).2.nextPipe
              = st.nextPipe := by
            rw [aggregatorRun_nextPipe]
            exact flushChunksToOrigPipes_nextPipe noFail s.outFilesOrigMap s.chunks st
          have hfstA : (aggregatorRun fail late
              ({ outFiles := s.outFiles, outWFiles := s.outWFiles,
                 origOutFiles := s.origOutFiles, outFilesOrigMap := s.outFilesOrigMap,
                 chunks := s.chunks, needPassThrough := true, outCOpen := true },
               flushChunksToOrigPipes fail s.chunks s.outFilesOrigMap st)).1 =
              { outFiles := s.outFiles, outWFiles := s.outWFiles,
                origOutFiles := s.origOutFiles, outFilesOrigMap := s.outFilesOrigMap,
                chunks := s.chunks ++ late, needPassThrough := true, outCOpen := true } :=
            aggregatorRun_fst fail late _
          have hfstB : (aggregatorRun noFail late
              ({ outFiles := s.outFiles, outWFiles := s.outWFiles,
                 origOutFiles := s.origOutFiles, outFilesOrigMap := s.outFilesOrigMap,
                 chunks := s.chunks, needPassThrough := true, outCOpen := true },
               flushChunksToOrigPipes noFail s.chunks s.outFilesOrigMap st)).1 =
              { outFiles := s.outFiles, outWFiles := s.outWFiles,
                origOutFiles := s.origOutFiles, outFilesOrigMap := s.outFilesOrigMap,
                chunks := s.chunks ++ late, needPassThrough := true, outCOpen := true } :=
            aggregatorRun_fst noFail late _
          simp only [restore, hoc, if_true]
          rw [hmemA, hmemB]
          cases hro : restoreOutFiles s.outFiles s.outWFiles s.origOutFiles st.mem with
          | error i => simp [stripRestoreResult, hmemA, hmemB, hnpA, hnpB]
          | ok mem2 => simp [stripRestoreResult, hfstA, hfstB, hnpA, hnpB]

/-- The serialized execution of the aggregator loop around a
passThroughOuts=true restore.  The aggregator appends each chunk while
holding chunksFromPipesLock for writing, and the restore performs its bulk
flush and the arming of needPassThrough while holding the same RWMutex for
reading, so every execution orders the flush/arm step atomically between
two aggregator iterations; k is the number of chunks the aggregator had
already processed when the restore acquired the lock. -/
def passThroughRun (s : Session) (st : CaptureState) (cs : List ChunkFromFile) (k : Nat) :
    Session × CaptureState :=
  let p1 := aggregatorRun noFail (cs.take k) (s, st)
  let p2 : Session × CaptureState :=
    ({ p1.1 with needPassThrough := true },
     flushChunksToOrigPipes noFail p1.1.chunks p1.1.outFilesOrigMap p1.2)
  aggregatorRun noFail (cs.drop k) p2

/-- C9: under a passThroughOuts=true restore, every captured chunk is
delivered to its saved original descriptor exactly once, wherever the
flush point falls: the chunks processed before the restore acquired the
lock are delivered by the bulk flush, the chunks of the race window are
delivered by the armed write-through, and the final write log lists each
captured chunk exactly once, in capture order.  The final chunk list
contains every arrival, including the race-window ones the restore call
then returns. -/
theorem passThrough_delivers_exactly_once (s : Session) (st : CaptureState)
    (cs : List ChunkFromFile) (k : Nat)
    (hch : s.chunks = []) (hnpt : s.needPassThrough = false) (hlog : st.writeLog = []) :
    (passThroughRun s st cs k).1.chunks = cs ∧
    (passThroughRun s st cs k).2.writeLog =
      cs.map (fun c => (mapLookup s.outFilesOrigMap c.outFile, c.chunk)) := by
  unfold passThroughRun
  have h1 : (aggregatorRun noFail (cs.take k) (s, st)).1 =
      { s with chunks := s.chunks ++ cs.take k } :=
    aggregatorRun_fst noFail (cs.take k) (s, st)
  have h1log : (aggregatorRun noFail (cs.take k) (s, st)).2.writeLog = st.writeLog :=
    aggregatorRun_writeLog_of_not_passThrough noFail (cs.take k) (s, st) hnpt
  rw [hch] at h1
  simp only [List.nil_append] at h1
  simp only [h1]
  have h2 : (aggregatorRun noFail (cs.drop k)
      ({ outFiles := s.outFiles, outWFiles := s.outWFiles,
         origOutFiles := s.origOutFiles, outFilesOrigMap := s.outFilesOrigMap,
         chunks := cs.take k, needPassThrough := true, outCOpen := s.outCOpen },
       flushChunksToOrigPipes noFail (cs.take k) s.outFilesOrigMap
         (aggregatorRun noFail (cs.take k) (s, st)).2)).1 =
      { outFiles := s.outFiles, outWFiles := s.outWFiles,
        origOutFiles := s.origOutFiles, outFilesOrigMap := s.outFilesOrigMap,
        chunks := cs.take k ++ cs.drop k, needPassThrough := true, outCOpen := s.outCOpen } :=
    aggregatorRun_fst noFail (cs.drop k) _
  have h3 : (aggregatorRun noFail (cs.drop k)
      ({ outFiles := s.outFiles, outWFiles := s.outWFiles,
         origOutFiles := s.origOutFiles, outFilesOrigMap := s.outFilesOrigMap,
         chunks := cs.take k, needPassThrough := true, outCOpen := s.outCOpen },
       flushChunksToOrigPipes noFail (cs.take k) s.outFilesOrigMap
         (aggregatorRun noFail (cs.take k) (s, st)).2)).2.writeLog =
      (flushChunksToOrigPipes noFail (cs.take k) s.outFilesOrigMap
        (aggregatorRun noFail (cs.take k) (s, st)).2).writeLog ++
        (cs.drop k).map (fun c => (mapLookup s.outFilesOrigMap c.outFile, c.chunk)) :=
    aggregatorRun_writeLog_of_passThrough (cs.drop k) _ rfl
  have h4 : (flushChunksToOrigPipes noFail (cs.take k) s.outFilesOrigMap
      (aggregatorRun noFail (cs.take k) (s, st)).2).writeLog =
      (aggregatorRun noFail (cs.take k) (s, st)).2.writeLog ++
        (cs.take k).map (fun c => (mapLookup s.outFilesOrigMap c.outFile, c.chunk)) :=
    flushChunksToOrigPipes_writeLog s.outFilesOrigMap (cs.take k) _
  constructor
  · rw [h2]
    simp [List.take_append_drop]
  · rw [h3, h4, h1log, hlog]
    rw [List.nil_append, ← List.map_append, List.take_append_drop]

/-- C9 witness: two chunks on handle 0 with saved original descriptor 3,
with the restore flush point between them: both writes appear exactly
once, in order. -/
theorem passThrough_delivers_exactly_once_witness :
    (passThroughRun
        { outFiles := [0], outWFiles := [5], origOutFiles := [3],
          outFilesOrigMap := [(0, 3)], chunks := [], needPassThrough := false,
          outCOpen := true }
        ⟨[5], 6, [], 0⟩ [⟨[1], 0⟩, ⟨[2], 0⟩] 1).1.chunks = [⟨[1], 0⟩, ⟨[2], 0⟩] ∧
    (passThroughRun
        { outFiles := [0], outWFiles := [5], origOutFiles := [3],
          outFilesOrigMap := [(0, 3)], chunks := [], needPassThrough := false,
          outCOpen := true }
        ⟨[5], 6, [], 0⟩ [⟨[1], 0⟩, ⟨[2], 0⟩] 1).2.writeLog =
      ([⟨[1], 0⟩, ⟨[2], 0⟩] : List ChunkFromFile).map
        (fun c => (mapLookup [(0, 3)] c.outFile, c.chunk)) :=
  passThrough_delivers_exactly_once
    { outFiles := [0], outWFiles := [5], origOutFiles := [3],
      outFilesOrigMap := [(0, 3)], chunks := [], needPassThrough := false,
      outCOpen := true }
    ⟨[5], 6, [], 0⟩ [⟨[1], 0⟩, ⟨[2], 0⟩] 1 rfl rfl rfl

end Flowmingo
